import Mathlib

/-!
Verification of the TorchDrive steering model and its training loop
(src/torch_model.py) against the repository specification.

The PyTorch program is shallowly embedded:
tensor shapes are tracked with explicit natural-number arithmetic,
tensor values are rational-valued functions of their indices (the real
exponential inside ELU is abstracted as a function parameter, since it
is not rational), and the training loop is a fold over the per-epoch
lists of per-batch loss values.  The loss values themselves depend on
external data and on the evolving learned parameters, so they enter the
embedding as inputs of the trainer.
-/

namespace TorchDrive

/-- Output length of one spatial dimension of torch.nn.Conv2d with no
padding and no dilation: (n - k) / s + 1 with natural floor division. -/
def convOutDim (n k s : ℕ) : ℕ := (n - k) / s + 1

/-- Height after the five convolutions of Driver.__init__ (src lines 31-35):
three 5 by 5 kernels with stride 2, then two 3 by 3 kernels with stride 1. -/
def convsOutHeight (h : ℕ) : ℕ :=
  convOutDim (convOutDim (convOutDim (convOutDim (convOutDim h 5 2) 5 2) 5 2) 3 1) 3 1

/-- Width after the five convolutions of Driver.__init__ (src lines 31-35). -/
def convsOutWidth (w : ℕ) : ℕ :=
  convOutDim (convOutDim (convOutDim (convOutDim (convOutDim w 5 2) 5 2) 5 2) 3 1) 3 1

/-- Flattened width produced by torch.flatten at src line 58 for an input of
spatial shape h by w: 64 output channels of conv_5 times the final spatial
extent. -/
def flattenedSizeFor (h w : ℕ) : ℕ := 64 * convsOutHeight h * convsOutWidth w

/-- A spatial shape is accepted by the convolution stack iff every
convolution receives an input at least as large as its kernel (otherwise
torch.nn.Conv2d raises before the flatten at src line 58 is reached). -/
def convsValid (h w : ℕ) : Bool :=
  decide (5 ≤ h) &&
  decide (5 ≤ convOutDim h 5 2) &&
  decide (5 ≤ convOutDim (convOutDim h 5 2) 5 2) &&
  decide (3 ≤ convOutDim (convOutDim (convOutDim h 5 2) 5 2) 5 2) &&
  decide (3 ≤ convOutDim (convOutDim (convOutDim (convOutDim h 5 2) 5 2) 5 2) 3 1) &&
  decide (5 ≤ w) &&
  decide (5 ≤ convOutDim w 5 2) &&
  decide (5 ≤ convOutDim (convOutDim w 5 2) 5 2) &&
  decide (3 ≤ convOutDim (convOutDim (convOutDim w 5 2) 5 2) 5 2) &&
  decide (3 ≤ convOutDim (convOutDim (convOutDim (convOutDim w 5 2) 5 2) 5 2) 3 1)

/-- Shape semantics of torch.Tensor.squeeze with no argument (src line 74):
every dimension of size 1 is removed. -/
def squeezeShape (shape : List ℕ) : List ℕ := shape.filter (fun n => n != 1)

/-! Value-level embedding of the network.  A 4-dimensional tensor is its
shape together with a total rational-valued index function; reads outside
the shape are never performed by the operations below on well-shaped data. -/

/-- A rank-4 tensor (batch, channels, height, width) over the rationals. -/
structure Tensor4 where
  batch : ℕ
  channels : ℕ
  height : ℕ
  width : ℕ
  data : ℕ → ℕ → ℕ → ℕ → ℚ

/-- A rank-2 tensor (batch, features) over the rationals. -/
structure Tensor2 where
  batch : ℕ
  width : ℕ
  data : ℕ → ℕ → ℚ

/-- Parameters of one torch.nn.Conv2d layer. -/
structure Conv2dLayer where
  inChannels : ℕ
  outChannels : ℕ
  kh : ℕ
  kw : ℕ
  sh : ℕ
  sw : ℕ
  weight : ℕ → ℕ → ℕ → ℕ → ℚ
  bias : ℕ → ℚ

/-- Parameters of one torch.nn.Linear layer. -/
structure LinearLayer where
  inFeatures : ℕ
  outFeatures : ℕ
  weight : ℕ → ℕ → ℚ
  bias : ℕ → ℚ

/-- Semantics of torch.nn.Conv2d with no padding and no dilation:
cross-correlation plus bias. -/
def conv2d (c : Conv2dLayer) (t : Tensor4) : Tensor4 where
  batch := t.batch
  channels := c.outChannels
  height := convOutDim t.height c.kh c.sh
  width := convOutDim t.width c.kw c.sw
  data := fun b o i j =>
    c.bias o + Finset.sum (Finset.range c.inChannels) (fun ci =>
      Finset.sum (Finset.range c.kh) (fun di =>
        Finset.sum (Finset.range c.kw) (fun dj =>
          c.weight o ci di dj * t.data b ci (i * c.sh + di) (j * c.sw + dj))))

/-- Semantics of torch.nn.functional.elu: identity on positive inputs,
alpha * (exp x - 1) otherwise.  The real exponential is passed in as an
abstract function, since it has no exact rational counterpart. -/
def elu (exp : ℚ → ℚ) (alpha : ℚ) (x : ℚ) : ℚ :=
  if 0 < x then x else alpha * (exp x - 1)

/-- Pointwise application of a scalar function to a rank-4 tensor. -/
def map4 (f : ℚ → ℚ) (t : Tensor4) : Tensor4 :=
  { t with data := fun b c i j => f (t.data b c i j) }

/-- Pointwise application of a scalar function to a rank-2 tensor. -/
def map2 (f : ℚ → ℚ) (t : Tensor2) : Tensor2 :=
  { t with data := fun b k => f (t.data b k) }

/-- Semantics of torch.nn.Dropout(p): in training mode each element is
zeroed where the random mask holds and the survivors are rescaled by
1 / (1 - p); in evaluation mode the input passes through unchanged. -/
def dropout (p : ℚ) (training : Bool) (mask : ℕ → ℕ → ℕ → ℕ → Bool)
    (t : Tensor4) : Tensor4 :=
  if training then
    { t with data := fun b c i j =>
        if mask b c i j then 0 else t.data b c i j / (1 - p) }
  else t

/-- Semantics of torch.flatten(x, start_dim=1, end_dim=3) (src line 58):
the channel and spatial dimensions collapse into one feature dimension in
row-major order. -/
def flattenTensor (t : Tensor4) : Tensor2 where
  batch := t.batch
  width := t.channels * t.height * t.width
  data := fun b k =>
    t.data b (k / (t.height * t.width)) (k % (t.height * t.width) / t.width) (k % t.width)

/-- Semantics of torch.nn.Linear: affine map on the feature dimension. -/
def linearApply (l : LinearLayer) (t : Tensor2) : Tensor2 where
  batch := t.batch
  width := l.outFeatures
  data := fun b j =>
    l.bias j + Finset.sum (Finset.range l.inFeatures) (fun i => l.weight j i * t.data b i)

/-- Semantics of torch.cat((t, u), 1) (src line 70): concatenation along
the feature dimension. -/
def catDim1 (t u : Tensor2) : Tensor2 where
  batch := t.batch
  width := t.width + u.width
  data := fun b k => if k < t.width then t.data b k else u.data b (k - t.width)

/-- Image normalization of Driver._convs, src line 50: image / 127.5 - 1. -/
def normalize (x : ℚ) : ℚ := x / 127.5 - 1

/-- The learned weights of the Driver network, left abstract: their values
are produced by the framework's random initialisation and by training. -/
structure DriverWeights where
  convW1 : ℕ → ℕ → ℕ → ℕ → ℚ
  convB1 : ℕ → ℚ
  convW2 : ℕ → ℕ → ℕ → ℕ → ℚ
  convB2 : ℕ → ℚ
  convW3 : ℕ → ℕ → ℕ → ℕ → ℚ
  convB3 : ℕ → ℚ
  convW4 : ℕ → ℕ → ℕ → ℕ → ℚ
  convB4 : ℕ → ℚ
  convW5 : ℕ → ℕ → ℕ → ℕ → ℚ
  convB5 : ℕ → ℚ
  linW1 : ℕ → ℕ → ℚ
  linB1 : ℕ → ℚ
  linW2 : ℕ → ℕ → ℚ
  linB2 : ℕ → ℚ
  linW3 : ℕ → ℕ → ℚ
  linB3 : ℕ → ℚ
  linW4 : ℕ → ℕ → ℚ
  linB4 : ℕ → ℚ

/-- The layers built in Driver.__init__ (src lines 31-43). -/
structure DriverNet where
  conv_1 : Conv2dLayer
  conv_2 : Conv2dLayer
  conv_3 : Conv2dLayer
  conv_4 : Conv2dLayer
  conv_5 : Conv2dLayer
  drop_p : ℚ
  lin1 : LinearLayer
  lin2 : LinearLayer
  lin3 : LinearLayer
  lin4 : LinearLayer

/-- Driver.__init__ (src lines 26-43): the layer dimensions are the
literals of the source; lin1's input width is the flattened size inferred
from the dummy forward pass on a (batch, 3, 66, 200) input at src line 38.
Note lin4 is nn.Linear(10, 3) at src line 43. -/
def mkDriver (w : DriverWeights) : DriverNet where
  conv_1 := ⟨3, 24, 5, 5, 2, 2, w.convW1, w.convB1⟩
  conv_2 := ⟨24, 36, 5, 5, 2, 2, w.convW2, w.convB2⟩
  conv_3 := ⟨36, 48, 5, 5, 2, 2, w.convW3, w.convB3⟩
  conv_4 := ⟨48, 64, 3, 3, 1, 1, w.convW4, w.convB4⟩
  conv_5 := ⟨64, 64, 3, 3, 1, 1, w.convW5, w.convB5⟩
  drop_p := 0.5
  lin1 := ⟨flattenedSizeFor 66 200, 100, w.linW1, w.linB1⟩
  lin2 := ⟨100, 50, w.linW2, w.linB2⟩
  lin3 := ⟨51, 10, w.linW3, w.linB3⟩
  lin4 := ⟨10, 3, w.linW4, w.linB4⟩

/-- Driver._convs (src lines 45-61) at the level of tensor values:
normalize, five convolution plus ELU(alpha = 0.3) stages, dropout,
flatten.  The assignment to self.flattened_size at src line 59 is modelled
separately by forwardStep on DriverState. -/
def convsRun (exp : ℚ → ℚ) (net : DriverNet) (training : Bool)
    (mask : ℕ → ℕ → ℕ → ℕ → Bool) (image : Tensor4) : Tensor2 :=
  let image := map4 normalize image
  let conv1 := map4 (elu exp 0.3) (conv2d net.conv_1 image)
  let conv2 := map4 (elu exp 0.3) (conv2d net.conv_2 conv1)
  let conv3 := map4 (elu exp 0.3) (conv2d net.conv_3 conv2)
  let conv4 := map4 (elu exp 0.3) (conv2d net.conv_4 conv3)
  let conv5 := map4 (elu exp 0.3) (conv2d net.conv_5 conv4)
  let drop := dropout net.drop_p training mask conv5
  flattenTensor drop

/-- Driver.forward (src lines 63-74) at the level of tensor values: the
convolution block, two ELU linear stages, concatenation with the speed
feature, the 51 to 10 ELU stage and the final linear layer.  The trailing
squeeze at src line 74 only changes the shape, which squeezeShape models. -/
def driverForward (exp : ℚ → ℚ) (net : DriverNet) (training : Bool)
    (mask : ℕ → ℕ → ℕ → ℕ → Bool) (image : Tensor4) (speed : Tensor2) : Tensor2 :=
  let flat := convsRun exp net training mask image
  let lin1 := map2 (elu exp 0.3) (linearApply net.lin1 flat)
  let lin2 := map2 (elu exp 0.3) (linearApply net.lin2 lin1)
  let featureAdded := catDim1 lin2 speed
  let lin3 := map2 (elu exp 0.3) (linearApply net.lin3 featureAdded)
  linearApply net.lin4 lin3

/-! Mutable attribute state of the Driver module.  The only non-parameter
attribute Driver.forward touches is flattened_size, reassigned at src line
59 on every call of _convs; lin1's input width is frozen at construction. -/

/-- The non-layer state of a Driver instance: the flattened_size attribute,
the input width baked into lin1 at construction, and the (abstract)
learned parameters. -/
structure DriverState (α : Type) where
  flattened_size : ℕ
  lin1InFeatures : ℕ
  params : α

/-- State of a Driver right after __init__: the dummy pass on a
(batch, 3, 66, 200) input (src line 38) has set flattened_size, and lin1
was built with that width (src line 40). -/
def initDriverState {α : Type} (p : α) : DriverState α :=
  { flattened_size := flattenedSizeFor 66 200
    lin1InFeatures := flattenedSizeFor 66 200
    params := p }

/-- Effect of one Driver.forward call on the module state, for an image of
spatial shape h by w.  If the convolution stack accepts the shape,
flattened_size is reassigned (src line 59) before lin1 runs; the call then
succeeds iff the new flattened width matches lin1's input width.  If a
convolution rejects the shape, the error is raised before src line 59 and
the state is unchanged. -/
def forwardStep {α : Type} (s : DriverState α) (h w : ℕ) : DriverState α × Bool :=
  if convsValid h w then
    ({ s with flattened_size := flattenedSizeFor h w },
      flattenedSizeFor h w == s.lin1InFeatures)
  else (s, false)

/-- A forward call on spatial shape h by w completes without a shape error:
the convolutions accept it and the flattened width matches the width lin1
was constructed with. -/
def forwardSucceeds (h w : ℕ) : Bool :=
  convsValid h w && (flattenedSizeFor h w == flattenedSizeFor 66 200)

/-- Sequential execution of forward calls, keeping the module state. -/
def runForwards {α : Type} (s : DriverState α) (inputs : List (ℕ × ℕ)) : DriverState α :=
  inputs.foldl (fun t q => (forwardStep t q.1 q.2).1) s

/-! Embedding of the training loop (train, src lines 77-131).  A run is
determined by, per epoch, the list of per-batch training losses and the
list of per-batch validation losses; those values depend on the external
data loaders and the evolving parameters, so they are inputs here. -/

/-- The per-batch losses of one epoch: training phase then validation
phase. -/
structure EpochData where
  trainLosses : List ℚ
  valLosses : List ℚ

/-- Accumulation of an epoch's batch losses (src lines 95 and 116): each
new loss is concatenated at the front of the running tensor. -/
def epochLossAcc (batchLosses : List ℚ) : List ℚ :=
  batchLosses.foldl (fun acc l => l :: acc) []

/-- Mean of a list of rationals, as torch.Tensor.mean on a 1-d tensor. -/
def mean (l : List ℚ) : ℚ := l.sum / (l.length : ℚ)

/-- Checkpoint file name built at src line 127. -/
def checkpointName : String := "driver" ++ "_best.pt"

/-- Trainer state across epochs: the running best validation loss
(min_lost, src line 84), the checkpoint writes performed so far (file name
and epoch index of each torch.save at src line 128), and the two loss
histories (src line 81). -/
structure TrainState where
  min_lost : ℚ
  saves : List (String × ℕ)
  training_losses : List ℚ
  validation_losses : List ℚ

/-- Trainer state before the first epoch: sentinel best of 1000000
(src line 84), no checkpoints, empty histories. -/
def initTrainState : TrainState :=
  { min_lost := 1000000, saves := [], training_losses := [], validation_losses := [] }

/-- One epoch of train (src lines 86-128): record the mean of the
accumulated training losses, record the mean of the accumulated validation
losses, and if the latter is strictly below min_lost, update min_lost and
write the checkpoint. -/
def epochStep (i : ℕ) (s : TrainState) (d : EpochData) : TrainState :=
  let trainingLossMean := mean (epochLossAcc d.trainLosses)
  let valLossMean := mean (epochLossAcc d.valLosses)
  if valLossMean < s.min_lost then
    { min_lost := valLossMean
      saves := s.saves ++ [(checkpointName, i)]
      training_losses := s.training_losses ++ [trainingLossMean]
      validation_losses := s.validation_losses ++ [valLossMean] }
  else
    { min_lost := s.min_lost
      saves := s.saves
      training_losses := s.training_losses ++ [trainingLossMean]
      validation_losses := s.validation_losses ++ [valLossMean] }

/-- The epoch loop of train, from a given epoch index and state. -/
def trainRunAux : ℕ → TrainState → List EpochData → TrainState
  | _, s, [] => s
  | i, s, d :: ds => trainRunAux (i + 1) (epochStep i s d) ds

/-- A full run of the epoch loop of train (src lines 86-128). -/
def trainRun (ds : List EpochData) : TrainState := trainRunAux 0 initTrainState ds

/-- One invocation of the external visualization collaborator vis_train
(src line 131), recorded with its arguments. -/
structure VisCall where
  trainingMetric : List ℚ
  validationMetric : List ℚ
  epochs : ℕ
  metricType : String

/-- The whole train function (src lines 77-131): the epoch loop followed by
the single vis_train call on the two histories. -/
def train (ds : List EpochData) : TrainState × List VisCall :=
  let s := trainRun ds
  (s, [⟨s.training_losses, s.validation_losses, ds.length, "Losses"⟩])

/-- The per-epoch mean validation losses of a run, in epoch order. -/
def valMeans (ds : List EpochData) : List ℚ :=
  ds.map (fun d => mean (epochLossAcc d.valLosses))

/-- The per-epoch mean training losses of a run, in epoch order. -/
def trainMeans (ds : List EpochData) : List ℚ :=
  ds.map (fun d => mean (epochLossAcc d.trainLosses))

/-- Specification-side description of the checkpoint writes: starting from
epoch index i with running best m, an epoch whose mean validation loss v
improves on m contributes one write and lowers the best to v. -/
def savesSpec : ℕ → ℚ → List ℚ → List (String × ℕ)
  | _, _, [] => []
  | i, m, v :: vs =>
    (if v < m then [(checkpointName, i)] else []) ++
      savesSpec (i + 1) (if v < m then v else m) vs

/-! Event-trace view of the training loop, used for the checkpoint-ordering
and failure claims: each epoch emits its training-batch events, then its
validation-batch events, then the checkpoint write if the epoch improved. -/

/-- Observable events of a training run. -/
inductive TrainEvent where
  | trainBatch : ℕ → ℕ → TrainEvent
  | valBatch : ℕ → ℕ → TrainEvent
  | save : ℕ → String → TrainEvent

/-- Recognizer of checkpoint-write events. -/
def isSave : TrainEvent → Bool
  | TrainEvent.save _ _ => true
  | _ => false

/-- Events of one epoch of train, given the running best on entry: the
training-batch loop (src lines 90-98), the validation-batch loop (src
lines 109-116), then the conditional torch.save (src lines 125-128). -/
def epochTrace (i : ℕ) (minLost : ℚ) (d : EpochData) : List TrainEvent :=
  ((List.range d.trainLosses.length).map (fun b => TrainEvent.trainBatch i b)) ++
  ((List.range d.valLosses.length).map (fun b => TrainEvent.valBatch i b)) ++
  (if mean (epochLossAcc d.valLosses) < minLost then [TrainEvent.save i checkpointName] else [])

/-- Event trace of the epoch loop from a given epoch index and best. -/
def runTraceAux : ℕ → ℚ → List EpochData → List TrainEvent
  | _, _, [] => []
  | i, m, d :: ds =>
    epochTrace i m d ++
      runTraceAux (i + 1)
        (if mean (epochLossAcc d.valLosses) < m then mean (epochLossAcc d.valLosses) else m) ds

/-- Event trace of a completed run of train. -/
def runTrace (ds : List EpochData) : List TrainEvent := runTraceAux 0 1000000 ds

/-- Event trace of a run that fails during epoch number ds.length after tb
training batches and vb validation batches of that epoch: the failing
epoch emits only batch events, never reaching the save at src line 128. -/
def failTrace (ds : List EpochData) (tb vb : ℕ) : List TrainEvent :=
  runTrace ds ++
  ((List.range tb).map (fun b => TrainEvent.trainBatch ds.length b)) ++
  ((List.range vb).map (fun b => TrainEvent.valBatch ds.length b))

/-- A concrete all-zero weight assignment, used only to instantiate the
universally quantified theorems at one input. -/
def zeroWeights : DriverWeights where
  convW1 := fun _ _ _ _ => 0
  convB1 := fun _ => 0
  convW2 := fun _ _ _ _ => 0
  convB2 := fun _ => 0
  convW3 := fun _ _ _ _ => 0
  convB3 := fun _ => 0
  convW4 := fun _ _ _ _ => 0
  convB4 := fun _ => 0
  convW5 := fun _ _ _ _ => 0
  convB5 := fun _ => 0
  linW1 := fun _ _ => 0
  linB1 := fun _ => 0
  linW2 := fun _ _ => 0
  linB2 := fun _ => 0
  linW3 := fun _ _ => 0
  linB3 := fun _ => 0
  linW4 := fun _ _ => 0
  linB4 := fun _ => 0

/-! Helper lemmas about the trainer embedding. -/

/-- Folding cons over a list reverses it onto the accumulator. -/
lemma foldl_cons_eq (batchLosses acc : List ℚ) :
    batchLosses.foldl (fun acc l => l :: acc) acc = batchLosses.reverse ++ acc := by
  induction batchLosses generalizing acc with
  | nil => simp
  | cons b bs ih => simp [List.foldl_cons, ih, List.reverse_cons, List.append_assoc]

/-- The mean of the prepending accumulation equals the arithmetic mean of
the batch losses. -/
lemma mean_epochLossAcc (bs : List ℚ) :
    mean (epochLossAcc bs) = bs.sum / (bs.length : ℚ) := by
  unfold mean epochLossAcc
  rw [foldl_cons_eq, List.append_nil, List.sum_reverse, List.length_reverse]

/-- The running-best update of the source is the binary minimum. -/
lemma ite_lt_min (v m : ℚ) : (if v < m then v else m) = min m v := by
  rcases lt_or_le v m with h | h
  · rw [if_pos h, min_eq_right h.le]
  · rw [if_neg (not_lt.mpr h), min_eq_left h]

/-- Every entry of savesSpec carries the checkpoint name and an epoch
index at or beyond the start index. -/
lemma savesSpec_mem_lower (vs : List ℚ) :
    ∀ (i : ℕ) (m : ℚ) (e : String × ℕ),
      e ∈ savesSpec i m vs → e.1 = checkpointName ∧ i ≤ e.2 := by
  induction vs with
  | nil => intro i m e he; simp [savesSpec] at he
  | cons v vs ih =>
    intro i m e he
    unfold savesSpec at he
    rw [List.mem_append] at he
    rcases he with he | he
    · by_cases hv : v < m
      · rw [if_pos hv] at he
        simp at he
        subst he
        exact ⟨rfl, le_refl i⟩
      · rw [if_neg hv] at he
        simp at he
    · obtain ⟨h1, h2⟩ := ih (i + 1) _ e he
      exact ⟨h1, le_trans (Nat.le_succ i) h2⟩

/-- Membership characterization of savesSpec: epoch j (counted from the
start index) is saved exactly when its mean validation loss undercuts the
minimum of the initial best and all earlier means. -/
lemma savesSpec_mem (vs : List ℚ) :
    ∀ (i j : ℕ) (m : ℚ),
      ((checkpointName, i + j) ∈ savesSpec i m vs ↔
        j < vs.length ∧ vs.getD j 0 < (vs.take j).foldl min m) := by
  induction vs with
  | nil => intro i j m; simp [savesSpec]
  | cons v vs ih =>
    intro i j m
    cases j with
    | zero =>
      constructor
      · intro hmem
        unfold savesSpec at hmem
        rw [List.mem_append] at hmem
        rcases hmem with h | h
        · by_cases hv : v < m
          · exact ⟨Nat.succ_pos _, by simpa using hv⟩
          · rw [if_neg hv] at h
            simp at h
        · exfalso
          have := (savesSpec_mem_lower vs (i + 1) _ _ h).2
          omega
      · intro hpair
        have hv : v < m := by simpa using hpair.2
        unfold savesSpec
        rw [if_pos hv, List.mem_append]
        left
        simp
    | succ j =>
      unfold savesSpec
      rw [List.mem_append]
      have hne : (checkpointName, i + (j + 1)) ∉
          (if v < m then [(checkpointName, i)] else []) := by
        by_cases hv : v < m
        · simp only [if_pos hv, List.mem_singleton]
          intro hcontra
          have : i + (j + 1) = i := congrArg Prod.snd hcontra
          omega
        · simp [hv]
      have hidx : i + (j + 1) = (i + 1) + j := by omega
      constructor
      · intro hmem
        rcases hmem with h | h
        · exact absurd h hne
        · rw [hidx] at h
          have hih := (ih (i + 1) j (if v < m then v else m)).mp h
          refine ⟨by simpa using hih.1, ?_⟩
          simpa [List.foldl_cons, ite_lt_min] using hih.2
      · intro hpair
        right
        rw [hidx]
        apply (ih (i + 1) j (if v < m then v else m)).mpr
        refine ⟨by simpa using hpair.1, ?_⟩
        have h2 := hpair.2
        simpa [List.foldl_cons, ite_lt_min] using h2

/-- Unfolding of the epoch loop: histories are appended in epoch order,
the running best is the fold of min, and the saves follow savesSpec. -/
lemma trainRunAux_spec (ds : List EpochData) :
    ∀ (i : ℕ) (s : TrainState),
      (trainRunAux i s ds).training_losses = s.training_losses ++ trainMeans ds ∧
      (trainRunAux i s ds).validation_losses = s.validation_losses ++ valMeans ds ∧
      (trainRunAux i s ds).min_lost = (valMeans ds).foldl min s.min_lost ∧
      (trainRunAux i s ds).saves = s.saves ++ savesSpec i s.min_lost (valMeans ds) := by
  induction ds with
  | nil => intro i s; simp [trainRunAux, trainMeans, valMeans, savesSpec]
  | cons d ds ih =>
    intro i s
    obtain ⟨h1, h2, h3, h4⟩ := ih (i + 1) (epochStep i s d)
    have e1 : (epochStep i s d).training_losses =
        s.training_losses ++ [mean (epochLossAcc d.trainLosses)] := by
      by_cases hv : mean (epochLossAcc d.valLosses) < s.min_lost <;> simp [epochStep, hv]
    have e2 : (epochStep i s d).validation_losses =
        s.validation_losses ++ [mean (epochLossAcc d.valLosses)] := by
      by_cases hv : mean (epochLossAcc d.valLosses) < s.min_lost <;> simp [epochStep, hv]
    have e3 : (epochStep i s d).min_lost =
        (if mean (epochLossAcc d.valLosses) < s.min_lost then
          mean (epochLossAcc d.valLosses) else s.min_lost) := by
      by_cases hv : mean (epochLossAcc d.valLosses) < s.min_lost <;> simp [epochStep, hv]
    have e4 : (epochStep i s d).saves =
        s.saves ++ (if mean (epochLossAcc d.valLosses) < s.min_lost then
          [(checkpointName, i)] else []) := by
      by_cases hv : mean (epochLossAcc d.valLosses) < s.min_lost <;> simp [epochStep, hv]
    have hstep : trainRunAux i s (d :: ds) = trainRunAux (i + 1) (epochStep i s d) ds := rfl
    refine ⟨?_, ?_, ?_, ?_⟩
    · rw [hstep, h1, e1]
      simp [trainMeans, List.append_assoc]
    · rw [hstep, h2, e2]
      simp [valMeans, List.append_assoc]
    · rw [hstep, h3, e3]
      simp [valMeans, List.foldl_cons, ite_lt_min]
    · rw [hstep, h4, e4, e3]
      simp only [valMeans, List.map_cons, savesSpec, List.append_assoc]

/-- C1: the spec says the head after the speed concatenation is a 51 to 10
fully-connected layer with ELU followed by a final linear layer mapping 10
to 1, so that after the squeeze the output has one scalar per sample.  The
source instead builds nn.Linear(10, 3) at line 43, contradicting the
model's own docstring (line 19: one output neuron): every forward pass
yields 3 values per sample, and the squeezed output shape is never a
length-B vector of scalars. -/
theorem c1_final_layer_outputs_three :
    (∀ w : DriverWeights, (mkDriver w).lin3.inFeatures = 51 ∧
      (mkDriver w).lin3.outFeatures = 10 ∧ (mkDriver w).lin4.outFeatures = 3) ∧
    (∀ (exp : ℚ → ℚ) (w : DriverWeights) (training : Bool)
      (mask : ℕ → ℕ → ℕ → ℕ → Bool) (image : Tensor4) (speed : Tensor2),
      (driverForward exp (mkDriver w) training mask image speed).width = 3) ∧
    (∀ b : ℕ, squeezeShape [b, 3] ≠ [b]) := by
  refine ⟨fun w => ⟨rfl, rfl, rfl⟩, fun exp w training mask image speed => rfl, fun b => ?_⟩
  by_cases hb : b = 1
  · subst hb
    decide
  · have hb' : (b != 1) = true := by simpa using hb
    simp [squeezeShape, List.filter_cons, hb']

/-- C2: for every positive batch size, the flattened width inferred at
construction from a (batch, 3, 66, 200) dummy input is the closed-form
value of the five convolutions' kernel and stride arithmetic, namely 1152,
independent of the batch size, of the dummy values, of the weights, and of
the dropout mask; lin1 is built with exactly that input width. -/
theorem c2_flattened_width_deterministic (b : ℕ) (hb : 0 < b) (exp : ℚ → ℚ)
    (w : DriverWeights) (training : Bool) (mask : ℕ → ℕ → ℕ → ℕ → Bool)
    (data : ℕ → ℕ → ℕ → ℕ → ℚ) :
    (convsRun exp (mkDriver w) training mask ⟨b, 3, 66, 200, data⟩).width
        = flattenedSizeFor 66 200 ∧
    (mkDriver w).lin1.inFeatures = flattenedSizeFor 66 200 ∧
    flattenedSizeFor 66 200 = 1152 := by
  refine ⟨?_, rfl, by decide⟩
  cases training <;> rfl

/-- Witness for C2 at batch size 1 with zero weights and zero data. -/
theorem c2_flattened_width_deterministic_witness :
    0 < 1 ∧
    ((convsRun (fun x => x) (mkDriver zeroWeights) false (fun _ _ _ _ => false)
        ⟨1, 3, 66, 200, fun _ _ _ _ => 0⟩).width = flattenedSizeFor 66 200 ∧
      (mkDriver zeroWeights).lin1.inFeatures = flattenedSizeFor 66 200 ∧
      flattenedSizeFor 66 200 = 1152) :=
  ⟨Nat.one_pos,
    c2_flattened_width_deterministic 1 Nat.one_pos (fun x => x) zeroWeights false
      (fun _ _ _ _ => false) (fun _ _ _ _ => 0)⟩

/-- C6: the normalization at src line 50 maps every raw pixel intensity in
the interval from 0 to 255 into the interval from -1 to 1, and it is
invertible: normalize p * 127.5 + 127.5 recovers p. -/
theorem c6_normalization_invertible (p : ℚ) (h0 : 0 ≤ p) (h255 : p ≤ 255) :
    (-1 ≤ normalize p ∧ normalize p ≤ 1) ∧ normalize p * 127.5 + 127.5 = p := by
  constructor
  · constructor
    · have h : 0 ≤ p / 127.5 := div_nonneg h0 (by norm_num)
      unfold normalize
      linarith
    · have h : p / 127.5 ≤ 2 := by
        rw [div_le_iff₀ (by norm_num : (0:ℚ) < 127.5)]
        linarith
      unfold normalize
      linarith
  · unfold normalize
    field_simp

/-- Witness for C6 at pixel value 51. -/
theorem c6_normalization_invertible_witness :
    (0:ℚ) ≤ 51 ∧ (51:ℚ) ≤ 255 ∧
    ((-1 ≤ normalize 51 ∧ normalize 51 ≤ 1) ∧ normalize 51 * 127.5 + 127.5 = 51) :=
  ⟨by decide, by decide, c6_normalization_invertible 51 (by decide) (by decide)⟩

/-- C7: in evaluation mode dropout is the identity, and the forward pass is
deterministic: two forward runs on the same input in evaluation mode agree
whatever random masks the two runs draw. -/
theorem c7_eval_forward_deterministic :
    (∀ (p : ℚ) (mask : ℕ → ℕ → ℕ → ℕ → Bool) (t : Tensor4),
      dropout p false mask t = t) ∧
    (∀ (exp : ℚ → ℚ) (w : DriverWeights) (maskA maskB : ℕ → ℕ → ℕ → ℕ → Bool)
      (image : Tensor4) (speed : Tensor2),
      driverForward exp (mkDriver w) false maskA image speed
        = driverForward exp (mkDriver w) false maskB image speed) :=
  ⟨fun _ _ _ => rfl, fun _ _ _ _ _ _ => rfl⟩

/-- C10: every Driver.forward call that reaches the flatten reassigns the
flattened_size attribute from the current input's post-convolution shape
(src line 59); on a 66 by 200 input it is rewritten with the
construction-time value, while the admissible 70 by 200 input changes it;
no other module attribute is modified by forward. -/
theorem c10_forward_mutates_flattened_size :
    (∀ (α : Type) (s : DriverState α) (h w : ℕ),
      ((forwardStep s h w).1.flattened_size =
        if convsValid h w then flattenedSizeFor h w else s.flattened_size) ∧
      (forwardStep s 66 200).1.flattened_size = flattenedSizeFor 66 200 ∧
      (forwardStep s h w).1.lin1InFeatures = s.lin1InFeatures ∧
      (forwardStep s h w).1.params = s.params) ∧
    (∃ h2 w2 : ℕ, ¬(h2 = 66 ∧ w2 = 200) ∧ convsValid h2 w2 = true ∧
      ∀ (β : Type) (p : β),
        (forwardStep (initDriverState p) h2 w2).1.flattened_size ≠
          (initDriverState p).flattened_size) := by
  constructor
  · intro α s h w
    have h66 : convsValid 66 200 = true := by decide
    refine ⟨?_, ?_, ?_, ?_⟩
    · by_cases hc : convsValid h w <;> simp [forwardStep, hc]
    · simp [forwardStep, h66]
    · by_cases hc : convsValid h w <;> simp [forwardStep, hc]
    · by_cases hc : convsValid h w <;> simp [forwardStep, hc]
  · refine ⟨70, 200, by decide, by decide, fun β p => ?_⟩
    have h70 : convsValid 70 200 = true := by decide
    simp only [forwardStep, h70, if_true, initDriverState]
    decide

/-- Any sequence of completing forward calls leaves flattened_size at the
construction value: each such call rewrites the attribute with the width
that lin1 was built with. -/
lemma runForwards_flattened {α : Type} (inputs : List (ℕ × ℕ)) :
    ∀ s : DriverState α, s.flattened_size = flattenedSizeFor 66 200 →
      (∀ q ∈ inputs, forwardSucceeds q.1 q.2 = true) →
      (runForwards s inputs).flattened_size = flattenedSizeFor 66 200 := by
  induction inputs with
  | nil => intro s hs _; exact hs
  | cons q qs ih =>
    intro s hs hall
    have hq := hall q (List.mem_cons_self _ _)
    have hqs : ∀ r ∈ qs, forwardSucceeds r.1 r.2 = true :=
      fun r hr => hall r (List.mem_cons_of_mem _ hr)
    unfold forwardSucceeds at hq
    rw [Bool.and_eq_true] at hq
    obtain ⟨hv, hm⟩ := hq
    have hm' : flattenedSizeFor q.1 q.2 = flattenedSizeFor 66 200 := by
      simpa using hm
    have hstep : runForwards s (q :: qs) =
        runForwards ((forwardStep s q.1 q.2).1) qs := by
      unfold runForwards
      rw [List.foldl_cons]
    rw [hstep]
    apply ih
    · simp [forwardStep, hv, hm']
    · exact hqs

/-- C3: the flattened width is computed once at construction by the dummy
forward pass, and every sequence of completing forward calls after
construction leaves the model's flattened-size attribute equal to the
value established at construction (any call whose flattened width differed
from it would fail at lin1). -/
theorem c3_flattened_size_stable {α : Type} (p : α) (inputs : List (ℕ × ℕ))
    (hall : ∀ q ∈ inputs, forwardSucceeds q.1 q.2 = true) :
    (runForwards (initDriverState p) inputs).flattened_size
      = (initDriverState p).flattened_size :=
  runForwards_flattened inputs (initDriverState p) rfl hall

/-- Witness for C3: two forward calls on 66 by 200 images. -/
theorem c3_flattened_size_stable_witness :
    (∀ q ∈ [((66:ℕ), (200:ℕ)), (66, 200)], forwardSucceeds q.1 q.2 = true) ∧
    (runForwards (initDriverState (0:ℕ)) [(66, 200), (66, 200)]).flattened_size
      = (initDriverState (0:ℕ)).flattened_size :=
  ⟨by decide, c3_flattened_size_stable 0 [(66, 200), (66, 200)] (by decide)⟩

/-- C4: for every epoch of a run, a snapshot is persisted under the fixed
name driver_best.pt and the running best is updated exactly when that
epoch's mean validation loss is strictly lower than the best seen in any
prior epoch, the best being initialised to the sentinel 1000000; without a
strict improvement nothing is written and the best is unchanged (so the
final best is the minimum of the sentinel and all epoch means). -/
theorem c4_checkpoint_policy (ds : List EpochData) (i : ℕ) (hi : i < ds.length) :
    (("driver_best.pt", i) ∈ (trainRun ds).saves ↔
      (valMeans ds).getD i 0 < ((valMeans ds).take i).foldl min 1000000) ∧
    (∀ e ∈ (trainRun ds).saves, e.1 = "driver_best.pt") ∧
    (trainRun ds).min_lost = (valMeans ds).foldl min 1000000 := by
  obtain ⟨-, -, h3, h4⟩ := trainRunAux_spec ds 0 initTrainState
  have hrun : trainRun ds = trainRunAux 0 initTrainState ds := rfl
  have hname : checkpointName = "driver_best.pt" := rfl
  have hsaves : (trainRun ds).saves = savesSpec 0 1000000 (valMeans ds) := by
    rw [hrun, h4]
    simp [initTrainState]
  have hlen : (valMeans ds).length = ds.length := by simp [valMeans]
  refine ⟨?_, ?_, ?_⟩
  · rw [hsaves, ← hname]
    have hmem := savesSpec_mem (valMeans ds) 0 i 1000000
    rw [Nat.zero_add] at hmem
    rw [hmem]
    constructor
    · exact fun h => h.2
    · intro h
      exact ⟨by omega, h⟩
  · intro e he
    rw [hsaves] at he
    rw [← hname]
    exact (savesSpec_mem_lower (valMeans ds) 0 1000000 e he).1
  · rw [hrun, h3]
    simp [initTrainState]

/-- Witness for C4: a one-epoch run with a single validation batch. -/
theorem c4_checkpoint_policy_witness :
    0 < ([⟨[1], [2]⟩] : List EpochData).length ∧
    ((("driver_best.pt", 0) ∈ (trainRun [⟨[1], [2]⟩]).saves ↔
        (valMeans [⟨[1], [2]⟩]).getD 0 0 <
          ((valMeans [⟨[1], [2]⟩]).take 0).foldl min 1000000) ∧
      (∀ e ∈ (trainRun [⟨[1], [2]⟩]).saves, e.1 = "driver_best.pt") ∧
      (trainRun [⟨[1], [2]⟩]).min_lost = (valMeans [⟨[1], [2]⟩]).foldl min 1000000) :=
  ⟨Nat.one_pos, c4_checkpoint_policy [⟨[1], [2]⟩] 0 Nat.one_pos⟩

/-- C5 counterexample: the claim says every run with at least one epoch
writes a checkpoint at the end of the first epoch.  A one-epoch run whose
single validation batch has loss 2000000 has mean validation loss
2000000, which does not undercut the sentinel 1000000: no checkpoint is
written at all. -/
theorem c5_first_epoch_counterexample :
    ([⟨[1], [2000000]⟩] : List EpochData).length = 1 ∧
    (trainRun [⟨[1], [2000000]⟩]).saves = [] := by
  constructor
  · rfl
  · obtain ⟨-, -, -, h4⟩ := trainRunAux_spec [⟨[1], [2000000]⟩] 0 initTrainState
    have hrun : trainRun [⟨[1], [2000000]⟩] =
        trainRunAux 0 initTrainState [⟨[1], [2000000]⟩] := rfl
    have hm : mean (epochLossAcc [(2000000:ℚ)]) = 2000000 := by
      rw [mean_epochLossAcc]
      norm_num
    have hlt : ¬ ((2000000:ℚ) < 1000000) := by norm_num
    rw [hrun, h4]
    simp [initTrainState, valMeans, savesSpec, hm, hlt]

/-- C5 amended: a run with at least one epoch writes a checkpoint at the
end of the first epoch provided the first epoch's mean validation loss is
strictly below the sentinel 1000000; the sentinel makes this automatic
only for losses under 1000000, not for every run. -/
theorem c5_first_epoch_checkpoint (d : EpochData) (ds : List EpochData)
    (himpr : mean (epochLossAcc d.valLosses) < 1000000) :
    ("driver_best.pt", 0) ∈ (trainRun (d :: ds)).saves := by
  obtain ⟨-, -, -, h4⟩ := trainRunAux_spec (d :: ds) 0 initTrainState
  have hrun : trainRun (d :: ds) = trainRunAux 0 initTrainState (d :: ds) := rfl
  have hname : checkpointName = "driver_best.pt" := rfl
  rw [hrun, h4, ← hname]
  simp only [initTrainState, List.nil_append, valMeans, List.map_cons, savesSpec,
    if_pos himpr]
  exact List.mem_append_left _ (List.mem_singleton.mpr rfl)

/-- Witness for C5 amended: one epoch with validation loss 4. -/
theorem c5_first_epoch_checkpoint_witness :
    mean (epochLossAcc (⟨[3], [4]⟩ : EpochData).valLosses) < 1000000 ∧
    ("driver_best.pt", 0) ∈ (trainRun [⟨[3], [4]⟩]).saves :=
  ⟨by norm_num [mean_epochLossAcc],
    c5_first_epoch_checkpoint ⟨[3], [4]⟩ [] (by norm_num [mean_epochLossAcc])⟩

/-- C8: with at least one batch per phase per epoch, the value recorded for
an epoch is the arithmetic mean of that epoch's per-batch losses, for
training and validation alike; after N epochs both histories hold exactly
N entries in epoch order, and they are passed once to the visualization
collaborator. -/
theorem c8_loss_histories (ds : List EpochData)
    (hne : ∀ d ∈ ds, d.trainLosses ≠ [] ∧ d.valLosses ≠ []) :
    (train ds).1.training_losses =
      ds.map (fun d => d.trainLosses.sum / (d.trainLosses.length : ℚ)) ∧
    (train ds).1.validation_losses =
      ds.map (fun d => d.valLosses.sum / (d.valLosses.length : ℚ)) ∧
    (train ds).1.training_losses.length = ds.length ∧
    (train ds).1.validation_losses.length = ds.length ∧
    (train ds).2 = [⟨(train ds).1.training_losses, (train ds).1.validation_losses,
      ds.length, "Losses"⟩] := by
  obtain ⟨h1, h2, -, -⟩ := trainRunAux_spec ds 0 initTrainState
  have hfst : (train ds).1 = trainRunAux 0 initTrainState ds := rfl
  have ht : (train ds).1.training_losses =
      ds.map (fun d => d.trainLosses.sum / (d.trainLosses.length : ℚ)) := by
    rw [hfst, h1]
    simp [initTrainState, trainMeans, mean_epochLossAcc]
  have hv : (train ds).1.validation_losses =
      ds.map (fun d => d.valLosses.sum / (d.valLosses.length : ℚ)) := by
    rw [hfst, h2]
    simp [initTrainState, valMeans, mean_epochLossAcc]
  refine ⟨ht, hv, ?_, ?_, rfl⟩
  · rw [ht]; simp
  · rw [hv]; simp

/-- Witness for C8: one epoch with two training batches and one validation
batch. -/
theorem c8_loss_histories_witness :
    (∀ d ∈ ([⟨[1, 3], [2]⟩] : List EpochData), d.trainLosses ≠ [] ∧ d.valLosses ≠ []) ∧
    ((train [⟨[1, 3], [2]⟩]).1.training_losses =
        ([⟨[1, 3], [2]⟩] : List EpochData).map
          (fun d => d.trainLosses.sum / (d.trainLosses.length : ℚ)) ∧
      (train [⟨[1, 3], [2]⟩]).1.validation_losses =
        ([⟨[1, 3], [2]⟩] : List EpochData).map
          (fun d => d.valLosses.sum / (d.valLosses.length : ℚ)) ∧
      (train [⟨[1, 3], [2]⟩]).1.training_losses.length =
        ([⟨[1, 3], [2]⟩] : List EpochData).length ∧
      (train [⟨[1, 3], [2]⟩]).1.validation_losses.length =
        ([⟨[1, 3], [2]⟩] : List EpochData).length ∧
      (train [⟨[1, 3], [2]⟩]).2 = [⟨(train [⟨[1, 3], [2]⟩]).1.training_losses,
        (train [⟨[1, 3], [2]⟩]).1.validation_losses,
        ([⟨[1, 3], [2]⟩] : List EpochData).length, "Losses"⟩]) :=
  ⟨by decide, c8_loss_histories [⟨[1, 3], [2]⟩] (by decide)⟩

/-- Training-batch events are never checkpoint writes. -/
lemma filter_isSave_trainBatch (n i : ℕ) :
    ((List.range n).map (fun b => TrainEvent.trainBatch i b)).filter isSave = [] := by
  rw [List.filter_eq_nil_iff]
  intro a ha
  rw [List.mem_map] at ha
  obtain ⟨b, -, rfl⟩ := ha
  simp [isSave]

/-- Validation-batch events are never checkpoint writes. -/
lemma filter_isSave_valBatch (n i : ℕ) :
    ((List.range n).map (fun b => TrainEvent.valBatch i b)).filter isSave = [] := by
  rw [List.filter_eq_nil_iff]
  intro a ha
  rw [List.mem_map] at ha
  obtain ⟨b, -, rfl⟩ := ha
  simp [isSave]

/-- The checkpoint writes of one epoch's trace: a single write when the
epoch improves on the running best, and none otherwise. -/
lemma epochTrace_filter (i : ℕ) (m : ℚ) (d : EpochData) :
    (epochTrace i m d).filter isSave =
      (if mean (epochLossAcc d.valLosses) < m then [TrainEvent.save i checkpointName]
        else []) := by
  unfold epochTrace
  rw [List.filter_append, List.filter_append, filter_isSave_trainBatch,
    filter_isSave_valBatch]
  by_cases hv : mean (epochLossAcc d.valLosses) < m <;> simp [hv, isSave]

/-- Everything after an epoch's batch events is exactly its checkpoint
writes. -/
lemma epochTrace_drop (i : ℕ) (m : ℚ) (d : EpochData) :
    (epochTrace i m d).drop (d.trainLosses.length + d.valLosses.length) =
      (if mean (epochLossAcc d.valLosses) < m then [TrainEvent.save i checkpointName]
        else []) := by
  unfold epochTrace
  have hlen : (((List.range d.trainLosses.length).map
        (fun b => TrainEvent.trainBatch i b)) ++
      ((List.range d.valLosses.length).map (fun b => TrainEvent.valBatch i b))).length =
      d.trainLosses.length + d.valLosses.length := by
    simp
  rw [← hlen, List.drop_left]

/-- The checkpoint writes of the trace agree with savesSpec. -/
lemma runTraceAux_filter (ds : List EpochData) :
    ∀ (i : ℕ) (m : ℚ),
      (runTraceAux i m ds).filter isSave =
        (savesSpec i m (valMeans ds)).map (fun e => TrainEvent.save e.2 e.1) := by
  induction ds with
  | nil => intro i m; simp [runTraceAux, valMeans, savesSpec]
  | cons d ds ih =>
    intro i m
    have hstep : runTraceAux i m (d :: ds) = epochTrace i m d ++
        runTraceAux (i + 1)
          (if mean (epochLossAcc d.valLosses) < m then mean (epochLossAcc d.valLosses)
            else m) ds := rfl
    rw [hstep, List.filter_append, epochTrace_filter, ih]
    by_cases hv : mean (epochLossAcc d.valLosses) < m <;>
      simp [valMeans, savesSpec, hv]

/-- C9: the checkpoint is never written during an epoch's training or
validation batch loops — each epoch's writes are exactly what follows all
of its batch events, and they happen only when the completed validation
phase improved on the running best.  A run that fails mid-epoch emits only
batch events for the failing epoch, so it performs exactly the checkpoint
writes of the completed prefix: every previously written checkpoint is
untouched. -/
theorem c9_checkpoint_only_after_validation (ds : List EpochData) (tb vb : ℕ) :
    (failTrace ds tb vb).filter isSave = (runTrace ds).filter isSave ∧
    (runTrace ds).filter isSave =
      (trainRun ds).saves.map (fun e => TrainEvent.save e.2 e.1) ∧
    (∀ (i : ℕ) (m : ℚ) (d : EpochData),
      (epochTrace i m d).filter isSave =
        (epochTrace i m d).drop (d.trainLosses.length + d.valLosses.length)) := by
  refine ⟨?_, ?_, ?_⟩
  · unfold failTrace
    rw [List.filter_append, List.filter_append, filter_isSave_trainBatch,
      filter_isSave_valBatch, List.append_nil, List.append_nil]
  · have h := runTraceAux_filter ds 0 1000000
    obtain ⟨-, -, -, h4⟩ := trainRunAux_spec ds 0 initTrainState
    have hsaves : (trainRun ds).saves = savesSpec 0 1000000 (valMeans ds) := by
      rw [show trainRun ds = trainRunAux 0 initTrainState ds from rfl, h4]
      simp [initTrainState]
    rw [show runTrace ds = runTraceAux 0 1000000 ds from rfl, h, hsaves]
  · intro i m d
    rw [epochTrace_filter, epochTrace_drop]

end TorchDrive
